import Mathlib

/-!
# revman: a verification development of `main.go`

A shallow embedding of the single source file of `revman` (a command-line
completion assistant backed by a local Ollama server) together with the
library routines it calls, and theorems about the behaviour of
`getLogPath`, `selectOption` and `main`.

Conventions of the embedding:

* a Go `string` is a `List Char` (`Str`).  The only separators the program
  ever searches for are the ASCII characters `(`, `/` and space, which are
  single bytes that never occur inside a multi-byte UTF-8 sequence, so
  splitting and joining at character level coincides with Go's byte level;
* a Go `error` is `Option GoErr` (`none` is `nil`);
* everything the program obtains from outside (environment, file system,
  the Ollama server, the terminal prompt, map iteration order) is a field
  of `World`; `main` is a function from a `World` to an `Outcome`.
-/

namespace Revman

/-- A Go string. -/
abbrev Str := List Char

/-! ## Package `strings` -/

/-- Go `strings.HasPrefix(s, pre)`. -/
def hasPrefix : Str → Str → Bool
  | _, [] => true
  | [], _ :: _ => false
  | c :: s, p :: pre => if c = p then hasPrefix s pre else false

/-- Go `strings.Index(s, sep)`: the index of the first occurrence of `sep`
in `s`, `none` for Go's `-1`. -/
def stringsIndex : Str → Str → Option Nat
  | [], sep => if sep = [] then some 0 else none
  | c :: s, sep =>
    if hasPrefix (c :: s) sep then some 0
    else (stringsIndex s sep).map (· + 1)

/-- The loop of Go `strings.Count(s, substr)` for a non-empty `substr`:
repeatedly find the next occurrence and continue behind it.  Every
iteration consumes at least one character, so `fuel = len(s)` iterations
are always enough (`stringsCount` supplies `len(s) + 1`). -/
def countLoop (substr : Str) : Nat → Str → Nat
  | 0, _ => 0
  | fuel + 1, s =>
    match stringsIndex s substr with
    | none => 0
    | some i => countLoop substr fuel (s.drop (i + substr.length)) + 1

/-- Go `strings.Count(s, substr)`: the number of non-overlapping instances
of `substr` in `s`; for the empty `substr` it is `len(s) + 1`. -/
def stringsCount (s substr : Str) : Nat :=
  if substr = [] then s.length + 1 else countLoop substr (s.length + 1) s

/-- Go `explode(s, n)` for `n < 0`: one string per character. -/
def explode (s : Str) : List Str := s.map fun c => [c]

/-- The `for i < n` loop of Go `genSplit` (with `sepSave = 0`): `k` is the
number of cuts still allowed, `n - 1 - i`. -/
def genSplitLoop (sep : Str) : Nat → Str → List Str
  | 0, s => [s]
  | k + 1, s =>
    match stringsIndex s sep with
    | none => [s]
    | some m => s.take m :: genSplitLoop sep k (s.drop (m + sep.length))

/-- Go `strings.Split(s, sep)`, that is `genSplit(s, sep, 0, -1)`. -/
def stringsSplit (s sep : Str) : List Str :=
  if sep = [] then explode s
  else
    let n := stringsCount s sep + 1
    let n := if n > s.length + 1 then s.length + 1 else n
    genSplitLoop sep (n - 1) s

/-- Go `strings.Join(elems, sep)`. -/
def stringsJoin : List Str → Str → Str
  | [], _ => []
  | [e], _ => e
  | e :: rest, sep => rest.foldl (fun b s => b ++ sep ++ s) e

/-! ## Package `path` -/

/-- The inner loop of the `..` case of Go `path.Clean`, after the first
`out.w--`: `for out.w > dotdot && out.index(out.w) != '/' { out.w-- }`.
The output buffer is kept newest character first; `last` is the character
at index `out.w`, the one dropped most recently. -/
def backtrackLoop (dotdot : Nat) : Char → List Char → List Char
  | _, [] => []
  | last, c :: rout =>
    if (c :: rout).length > dotdot ∧ last ≠ '/' then backtrackLoop dotdot c rout
    else c :: rout

/-- The `can backtrack` branch of Go `path.Clean`: drop the last path
element of the output buffer together with the slash before it. -/
def backtrack (dotdot : Nat) : List Char → List Char
  | [] => []
  | c :: rout => backtrackLoop dotdot c rout

/-- The `for r < n` loop of Go `path.Clean`.  `path` is the input from
index `r` on, `rout` the output buffer (newest character first, so
`out.w = rout.length`).  Every iteration advances `r` by at least one, so
`len(path)` iterations are always enough. -/
def cleanLoop (rooted : Bool) : Nat → List Char → List Char → Nat → List Char
  | 0, _, rout, _ => rout
  | _ + 1, [], rout, _ => rout
  | fuel + 1, c :: rest, rout, dotdot =>
    if c = '/' then
      -- empty path element
      cleanLoop rooted fuel rest rout dotdot
    else if c = '.' ∧ (rest = [] ∨ rest.head? = some '/') then
      -- . element
      cleanLoop rooted fuel rest rout dotdot
    else if c = '.' ∧ rest.head? = some '.' ∧
        (rest.tail = [] ∨ rest.tail.head? = some '/') then
      -- .. element: remove to last /
      if rout.length > dotdot then
        cleanLoop rooted fuel rest.tail (backtrack dotdot rout) dotdot
      else if !rooted then
        let rout1 := if rout.length > 0 then '/' :: rout else rout
        let rout2 := '.' :: '.' :: rout1
        cleanLoop rooted fuel rest.tail rout2 rout2.length
      else
        cleanLoop rooted fuel rest.tail rout dotdot
    else
      -- real path element: add slash if needed, copy element
      let rout1 :=
        if (rooted ∧ rout.length ≠ 1) ∨ (!rooted ∧ rout.length ≠ 0) then '/' :: rout
        else rout
      let elem := (c :: rest).takeWhile (· ≠ '/')
      cleanLoop rooted fuel ((c :: rest).dropWhile (· ≠ '/')) (elem.reverse ++ rout1) dotdot

/-- Go `path.Clean(path)`. -/
def pathClean (path : Str) : Str :=
  match path with
  | [] => ['.']
  | c :: rest =>
    let rooted : Bool := c = '/'
    let rout :=
      if rooted then cleanLoop rooted (c :: rest).length rest ['/'] 1
      else cleanLoop rooted (c :: rest).length (c :: rest) [] 0
    if rout.length = 0 then ['.'] else rout.reverse

/-- Go `path.Join(elem...)`: the non-empty elements joined by slashes,
cleaned; the empty string when every element is empty. -/
def pathJoin (elem : List Str) : Str :=
  let size := (elem.map List.length).sum
  if size = 0 then []
  else
    let buf := elem.foldl
      (fun buf e =>
        if buf.length > 0 ∨ e ≠ [] then (if buf.length > 0 then buf ++ ['/'] else buf) ++ e
        else buf) []
    pathClean buf

/-! ## Errors and the environment of `getLogPath` -/

/-- A non-nil Go `error` value. -/
inductive GoErr
  /-- An error of the operating system or of a client library, with the
  text its `Error()` method returns. -/
  | errorString (text : Str)
  /-- The `*json.SyntaxError` of `encoding/json`. -/
  | syntaxError
  /-- The `*json.UnmarshalTypeError` of `encoding/json`, with its `Value`
  field (the description of the offending JSON value). -/
  | unmarshalTypeError (value : Str)
  deriving DecidableEq, Repr

/-- What `getLogPath` observes of the operating system. -/
structure OsEnv where
  /-- Outcome of `os.LookupEnv`: the value when the variable is set. -/
  lookupEnv : Str → Option Str
  /-- Outcome of `os.UserHomeDir()`. -/
  userHomeDir : Except GoErr Str
  /-- Outcome of `os.MkdirAll(path, os.ModePerm)`: `none` is `nil`. -/
  mkdirAll : Str → Option GoErr

/-- Source `getLogPath` (main.go, lines 23-39); the result is Go's pair
`(string, error)`. -/
def getLogPath (os : OsEnv) : Str × Option GoErr :=
  let afterLookup (xdgStateHome : Str) : Str × Option GoErr :=
    let logPath := pathJoin [xdgStateHome, "revman".toList]
    match os.mkdirAll logPath with
    | some err => ([], some err)
    | none => (pathJoin [logPath, "general.log".toList], none)
  match os.lookupEnv "XDG_STATE_HOME".toList with
  | some xdgStateHome => afterLookup xdgStateHome
  | none =>
    match os.userHomeDir with
    | .error err => ([], some err)
    | .ok homeDir => afterLookup (pathJoin [homeDir, "state".toList])

/-! ## Package `encoding/json`

`json.Unmarshal(data, &respJSON)` with `respJSON` of type `map[string]any`.
The decoder is embedded as the byte-at-a-time state machine of the library's
scanner (`parseState` stack, one step function per state), extended with
the values under construction. -/

/-- A decoded JSON value, Go's `any` as produced by `encoding/json`.  A
number is carried as its literal: the program never inspects its
`float64` value. -/
inductive JsonValue
  | null
  | bool (b : Bool)
  | number (lit : Str)
  | string (s : Str)
  | array (elems : List JsonValue)
  | object (m : List (Str × JsonValue))

/-- A Go `map[string]any`, as the list of its entries. -/
abbrev GoMap := List (Str × JsonValue)

/-- Go `m[key] = v`: replaces the value of an existing key, adds the entry
otherwise. -/
def mapSet : GoMap → Str → JsonValue → GoMap
  | [], key, v => [(key, v)]
  | (k, x) :: m, key, v => if k = key then (k, v) :: m else (k, x) :: mapSet m key v

/-- A container under construction: an entry of the scanner's `parseState`
stack together with the elements decoded so far. -/
inductive Frame
  /-- `parseArrayValue`; the elements, newest first. -/
  | arr (elems : List JsonValue)
  /-- `parseObjectKey`; `key` is the key once its string has been read. -/
  | objKey (m : GoMap) (key : Option Str)
  /-- `parseObjectValue`; `key` is the key whose value is still awaited. -/
  | objValue (m : GoMap) (key : Option Str)

/-- The step function the scanner is in. -/
inductive Mode
  | beginValue
  | beginValueOrEmpty
  | beginStringOrEmpty
  | beginString
  | endValue
  | endTop
  | inString
  | inStringEsc
  /-- Inside `\u`: `n` hex digits read so far, with value `acc`. -/
  | inStringEscU (n : Nat) (acc : Nat)
  | neg
  | state0
  | state1
  | dot
  | dot0
  | stateE
  | eSign
  | e0
  /-- Inside `true`, `false` or `null`: the characters still expected and the
  value the literal denotes. -/
  | literal (rest : Str) (v : JsonValue)
  | error

/-- The state of the decoder. -/
structure Scan where
  mode : Mode
  stack : List Frame
  /-- The string or number being read, newest character first. -/
  tok : List Char
  /-- A `\u` escape in the surrogate range whose partner is still awaited. -/
  pending : Option Nat
  /-- The first error saved by `d.saveError` (a number out of range). -/
  saved : Option GoErr
  /-- The completed top-level value. -/
  result : Option JsonValue

/-- Go `isSpace`. -/
def isSpace (c : Char) : Bool := c = ' ' ∨ c = '\t' ∨ c = '\r' ∨ c = '\n'

/-- A decimal digit. -/
def isDigit (c : Char) : Bool := '0'.toNat ≤ c.toNat ∧ c.toNat ≤ '9'.toNat

/-- The value of a hexadecimal digit, as accepted by the scanner in a
`\u` escape. -/
def hexVal (c : Char) : Option Nat :=
  if isDigit c then some (c.toNat - '0'.toNat)
  else if 'a'.toNat ≤ c.toNat ∧ c.toNat ≤ 'f'.toNat then some (c.toNat - 'a'.toNat + 10)
  else if 'A'.toNat ≤ c.toNat ∧ c.toNat ≤ 'F'.toNat then some (c.toNat - 'A'.toNat + 10)
  else none

/-- Go `maxNestingDepth`. -/
def maxNestingDepth : Nat := 10000

/-- The value of the decimal digits `ds`. -/
def digitsVal (ds : List Char) : Nat :=
  ds.foldl (fun n c => 10 * n + (c.toNat - '0'.toNat)) 0

/-- Whether `strconv.ParseFloat(lit, 64)` reports `ErrRange` for a literal
of the JSON number grammar: the exact decimal value is at least
`2^1024 - 2^970`, the point from which rounding to nearest yields an
infinity.  (Underflow to zero is not an error.) -/
def floatOutOfRange (lit : Str) : Bool :=
  let body := if lit.head? = some '-' then lit.tail else lit
  let intPart := body.takeWhile isDigit
  let afterInt := body.dropWhile isDigit
  let fracPart := if afterInt.head? = some '.' then afterInt.tail.takeWhile isDigit else []
  let afterFrac := if afterInt.head? = some '.' then afterInt.tail.dropWhile isDigit else afterInt
  let expBody := afterFrac.tail
  let expNeg : Bool := expBody.head? = some '-'
  let expDigits := if expBody.head? = some '-' ∨ expBody.head? = some '+' then expBody.tail else expBody
  let mant := digitsVal (intPart ++ fracPart)
  let e := digitsVal expDigits
  let bound := 2 ^ 1024 - 2 ^ 970
  -- value = mant * 10 ^ (± e - fracPart.length)
  if expNeg then decide (bound * 10 ^ (e + fracPart.length) ≤ mant)
  else if fracPart.length ≤ e then decide (bound ≤ mant * 10 ^ (e - fracPart.length))
  else decide (bound * 10 ^ (fracPart.length - e) ≤ mant)

/-- Go `unicode.ReplacementChar`. -/
def replacementChar : Char := Char.ofNat 0xFFFD

/-- Go `utf16.IsSurrogate`. -/
def isSurrogate (r : Nat) : Bool := 0xD800 ≤ r ∧ r < 0xE000

/-- The decoded string with a pending unpaired surrogate written out as the
replacement character. -/
def flushPending (s : Scan) : List Char :=
  match s.pending with
  | some _ => replacementChar :: s.tok
  | none => s.tok

/-- A value has been completed: store it in the innermost container under
construction, or as the top-level value. -/
def complete (s : Scan) (v : JsonValue) : Scan :=
  match s.stack with
  | [] => { s with mode := .endValue, tok := [], pending := none, result := some v }
  | .arr elems :: stack =>
    { s with mode := .endValue, tok := [], pending := none, stack := .arr (v :: elems) :: stack }
  | .objKey m none :: stack =>
    match v with
    | .string key =>
      { s with mode := .endValue, tok := [], pending := none, stack := .objKey m (some key) :: stack }
    | _ => { s with mode := .error }
  | .objValue m (some key) :: stack =>
    { s with mode := .endValue, tok := [], pending := none,
             stack := .objValue (mapSet m key v) none :: stack }
  | _ => { s with mode := .error }

/-- Go `pushParseState`: enter a container unless the nesting is too deep. -/
def pushParseState (s : Scan) (f : Frame) (mode : Mode) : Scan :=
  if s.stack.length + 1 ≤ maxNestingDepth then { s with mode := mode, stack := f :: s.stack }
  else { s with mode := .error }

/-- Go `stateEndValue`: the character after a completed value. -/
def stateEndValue (s : Scan) (c : Char) : Scan :=
  match s.stack with
  | [] =>
    -- completed top-level before the current byte: `stateEndTop`
    if isSpace c then { s with mode := .endTop } else { s with mode := .error }
  | f :: stack =>
    if isSpace c then { s with mode := .endValue }
    else
      match f with
      | .objKey m (some key) =>
        if c = ':' then { s with mode := .beginValue, stack := .objValue m (some key) :: stack }
        else { s with mode := .error }
      | .objValue m none =>
        if c = ',' then { s with mode := .beginString, stack := .objKey m none :: stack }
        else if c = '}' then complete { s with stack := stack } (.object m)
        else { s with mode := .error }
      | .arr elems =>
        if c = ',' then { s with mode := .beginValue }
        else if c = ']' then complete { s with stack := stack } (.array elems.reverse)
        else { s with mode := .error }
      | _ => { s with mode := .error }

/-- The end of a number literal: convert it as `d.convertNumber` does,
saving the range error if there is one, and hand the delimiter to
`stateEndValue`. -/
def endNumber (s : Scan) (c : Char) : Scan :=
  let lit := s.tok.reverse
  let saved :=
    match s.saved with
    | some e => some e
    | none =>
      if floatOutOfRange lit then some (.unmarshalTypeError ("number ".toList ++ lit)) else none
  stateEndValue (complete { s with saved := saved } (.number lit)) c

/-- Go `stateBeginValue`. -/
def stateBeginValue (s : Scan) (c : Char) : Scan :=
  if isSpace c then s
  else if c = '{' then pushParseState s (.objKey [] none) .beginStringOrEmpty
  else if c = '[' then pushParseState s (.arr []) .beginValueOrEmpty
  else if c = '"' then { s with mode := .inString, tok := [], pending := none }
  else if c = '-' then { s with mode := .neg, tok := [c] }
  else if c = '0' then { s with mode := .state0, tok := [c] }
  else if c = 't' then { s with mode := .literal "rue".toList (.bool true) }
  else if c = 'f' then { s with mode := .literal "alse".toList (.bool false) }
  else if c = 'n' then { s with mode := .literal "ull".toList .null }
  else if isDigit c then { s with mode := .state1, tok := [c] }
  else { s with mode := .error }

/-- Go `stateBeginString`. -/
def stateBeginString (s : Scan) (c : Char) : Scan :=
  if isSpace c then s
  else if c = '"' then { s with mode := .inString, tok := [], pending := none }
  else { s with mode := .error }

/-- A complete `\uXXXX` escape with value `r` inside a string, as Go
`unquoteBytes` decodes it: a high surrogate followed by a low surrogate
combine, any other surrogate becomes the replacement character. -/
def endEscU (s : Scan) (r : Nat) : Scan :=
  match s.pending with
  | some hi =>
    if 0xDC00 ≤ r ∧ r < 0xE000 then
      { s with mode := .inString, pending := none,
               tok := Char.ofNat ((hi - 0xD800) * 0x400 + (r - 0xDC00) + 0x10000) :: s.tok }
    else if 0xD800 ≤ r ∧ r < 0xDC00 then
      { s with mode := .inString, pending := some r, tok := replacementChar :: s.tok }
    else if isSurrogate r then
      { s with mode := .inString, pending := none, tok := replacementChar :: replacementChar :: s.tok }
    else
      { s with mode := .inString, pending := none, tok := Char.ofNat r :: replacementChar :: s.tok }
  | none =>
    if 0xD800 ≤ r ∧ r < 0xDC00 then { s with mode := .inString, pending := some r }
    else if isSurrogate r then { s with mode := .inString, tok := replacementChar :: s.tok }
    else { s with mode := .inString, tok := Char.ofNat r :: s.tok }

/-- The character a one-letter escape stands for. -/
def escapeChar (c : Char) : Option Char :=
  if c = 'b' then some (Char.ofNat 8)
  else if c = 'f' then some (Char.ofNat 12)
  else if c = 'n' then some '\n'
  else if c = 'r' then some '\r'
  else if c = 't' then some '\t'
  else if c = '\\' ∨ c = '/' ∨ c = '"' then some c
  else none

/-- One step of the decoder on the character `c`. -/
def step (s : Scan) (c : Char) : Scan :=
  match s.mode with
  | .error => s
  | .beginValue => stateBeginValue s c
  | .beginValueOrEmpty =>
    if isSpace c then s
    else if c = ']' then stateEndValue s c
    else stateBeginValue s c
  | .beginStringOrEmpty =>
    if isSpace c then s
    else if c = '}' then
      match s.stack with
      | .objKey m none :: stack => stateEndValue { s with stack := .objValue m none :: stack } c
      | _ => { s with mode := .error }
    else stateBeginString s c
  | .beginString => stateBeginString s c
  | .endValue => stateEndValue s c
  | .endTop => if isSpace c then s else { s with mode := .error }
  | .inString =>
    if c = '"' then complete s (.string (flushPending s).reverse)
    else if c = '\\' then { s with mode := .inStringEsc }
    else if c.toNat < 0x20 then { s with mode := .error }
    else { s with tok := c :: flushPending s, pending := none }
  | .inStringEsc =>
    if c = 'u' then { s with mode := .inStringEscU 0 0 }
    else
      match escapeChar c with
      | some x => { s with mode := .inString, tok := x :: flushPending s, pending := none }
      | none => { s with mode := .error }
  | .inStringEscU n acc =>
    match hexVal c with
    | none => { s with mode := .error }
    | some h =>
      if n = 3 then endEscU s (16 * acc + h)
      else { s with mode := .inStringEscU (n + 1) (16 * acc + h) }
  | .neg =>
    if c = '0' then { s with mode := .state0, tok := c :: s.tok }
    else if isDigit c then { s with mode := .state1, tok := c :: s.tok }
    else { s with mode := .error }
  | .state1 =>
    if isDigit c then { s with tok := c :: s.tok }
    else if c = '.' then { s with mode := .dot, tok := c :: s.tok }
    else if c = 'e' ∨ c = 'E' then { s with mode := .stateE, tok := c :: s.tok }
    else endNumber s c
  | .state0 =>
    if c = '.' then { s with mode := .dot, tok := c :: s.tok }
    else if c = 'e' ∨ c = 'E' then { s with mode := .stateE, tok := c :: s.tok }
    else endNumber s c
  | .dot =>
    if isDigit c then { s with mode := .dot0, tok := c :: s.tok }
    else { s with mode := .error }
  | .dot0 =>
    if isDigit c then { s with tok := c :: s.tok }
    else if c = 'e' ∨ c = 'E' then { s with mode := .stateE, tok := c :: s.tok }
    else endNumber s c
  | .stateE =>
    if c = '+' ∨ c = '-' then { s with mode := .eSign, tok := c :: s.tok }
    else if isDigit c then { s with mode := .e0, tok := c :: s.tok }
    else { s with mode := .error }
  | .eSign =>
    if isDigit c then { s with mode := .e0, tok := c :: s.tok }
    else { s with mode := .error }
  | .e0 =>
    if isDigit c then { s with tok := c :: s.tok }
    else endNumber s c
  | .literal rest v =>
    match rest with
    | [] => { s with mode := .error }
    | [x] => if c = x then complete s v else { s with mode := .error }
    | x :: more => if c = x then { s with mode := .literal more v } else { s with mode := .error }

/-- The decoder before the first character. -/
def scanInit : Scan :=
  { mode := .beginValue, stack := [], tok := [], pending := none, saved := none, result := none }

/-- Decode a complete JSON text: run the decoder over `data` and, as the
scanner's `eof` does, over one final space; the text is valid when that
reaches `stateEndTop`.  Yields the top-level value and the saved error. -/
def jsonDecode (data : Str) : Option (JsonValue × Option GoErr) :=
  let s := step (data.foldl step scanInit) ' '
  match s.mode, s.result with
  | .endTop, some v => some (v, s.saved)
  | _, _ => none

/-- Go `json.Unmarshal([]byte(data), &respJSON)` for a nil
`respJSON map[string]any`: the resulting map, or the error returned.  A
syntactically invalid text gives a `SyntaxError`; an object gives its map
(an error instead when one of its numbers is out of range); `null` sets
the map to nil without an error; any other value gives an
`UnmarshalTypeError`. -/
def jsonUnmarshal (data : Str) : Except GoErr GoMap :=
  match jsonDecode data with
  | none => .error .syntaxError
  | some (.object m, none) => .ok m
  | some (.object _, some e) => .error e
  | some (.null, _) => .ok []
  | some (.array _, _) => .error (.unmarshalTypeError "array".toList)
  | some (.string _, _) => .error (.unmarshalTypeError "string".toList)
  | some (.number _, _) => .error (.unmarshalTypeError "number".toList)
  | some (.bool _, _) => .error (.unmarshalTypeError "bool".toList)

/-! ## The Ollama client (`github.com/jmorganca/ollama/api`) -/

/-- Go `api.PullRequest`, the fields the program sets. -/
structure PullRequest where
  Model : Str
  Name : Str
  deriving DecidableEq

/-- Go `api.ProgressResponse`. -/
structure ProgressResponse where
  Status : Str
  Digest : Str
  Total : Int
  Completed : Int
  deriving DecidableEq

/-- Go `api.GenerateRequest`, the fields the program sets. -/
structure GenerateRequest where
  Model : Str
  System : Str
  Prompt : Str
  Format : Str
  deriving DecidableEq

/-- Go `api.GenerateResponse`: the fragment of text it carries and whether
it is the last one; the program reads `Response` only. -/
structure GenerateResponse where
  Response : Str
  Done : Bool
  deriving DecidableEq

/-- A streamed reply of the server: the messages it delivers and the
error, if any, with which the stream ends. -/
structure Stream (R : Type) where
  messages : List R
  err : Option GoErr

/-- The client's streaming call (`Client.stream`, behind both `Pull` and
`Generate`): the callback `fn` runs on every message in arrival order; the
first error it returns aborts the call and is returned; otherwise the
call returns the stream's own error. -/
def clientStream {R S : Type} (fn : S → R → S × Option GoErr) (final : Option GoErr) :
    List R → S → S × Option GoErr
  | [], s => (s, final)
  | r :: rest, s =>
    match fn s r with
    | (s1, some e) => (s1, some e)
    | (s1, none) => clientStream fn final rest s1

/-! ## The program -/

/-- A line handed to package `log`, as the call and its arguments. -/
inductive LogEntry
  /-- `log.Println(msg)`. -/
  | println (msg : Str)
  /-- `log.Printf("%#v\n", prog)`. -/
  | progress (prog : ProgressResponse)
  /-- `log.Printf("%+v\n", resp)`. -/
  | response (resp : GenerateResponse)
  /-- `log.Fatalf(format, arg)` with one error argument (`none` is `nil`). -/
  | fatalf (format : Str) (arg : Option GoErr)
  /-- `log.Fatal(arg)`. -/
  | fatal (arg : Option GoErr)
  deriving DecidableEq

/-- Everything a run of the program obtains from outside. -/
structure World where
  /-- `os.Args`. -/
  args : List Str
  /-- `runtime.GOOS`. -/
  goos : Str
  /-- The environment and file system seen by `getLogPath`. -/
  os : OsEnv
  /-- Outcome of `os.OpenFile(logPath, ...)`: `none` is success. -/
  openFile : Str → Option GoErr
  /-- Outcome of `os.Setenv(key, value)`. -/
  setenv : Str → Str → Option GoErr
  /-- Outcome of `cmd.Start()` for `ollama serve`. -/
  cmdStart : Option GoErr
  /-- The error of `api.ClientFromEnvironment()`. -/
  clientFromEnvironment : Option GoErr
  /-- The server's reply to a pull request. -/
  pull : PullRequest → Stream ProgressResponse
  /-- The server's reply to a generation request. -/
  generate : GenerateRequest → Stream GenerateResponse
  /-- The order in which `range` visits the entries of a map. -/
  rangeOrder : GoMap → GoMap
  /-- A `range` visits every entry exactly once. -/
  rangeOrder_perm : ∀ m, (rangeOrder m).Perm m
  /-- `pterm.Green`: the styling of a description. -/
  green : Str → Str
  /-- `pterm.DefaultInteractiveSelect.WithOptions(options).Show()`: the
  selection and the error of the interactive prompt. -/
  showSelect : List Str → Str × Option GoErr

/-- Source constant `ollamaHost`. -/
def ollamaHost : Str := "127.0.0.1:11435".toList

/-- Source constant `ollamaModel`. -/
def ollamaModel : Str := "codellama".toList

/-- The label `fmt.Sprintf("%s (%s)", compl, pterm.Green(desc))`. -/
def optionLabel (green : Str → Str) (compl desc : Str) : Str :=
  compl ++ " (".toList ++ green desc ++ ")".toList

/-- The `for ... range keyValueOptions` loop of `selectOption` (main.go,
lines 42-47): the labels handed to the prompt. -/
def selectOptions (w : World) (keyValueOptions : GoMap) : List Str :=
  (w.rangeOrder keyValueOptions).foldl
    (fun options entry =>
      match entry with
      | (compl, .string desc) => options ++ [optionLabel w.green compl desc]
      | _ => options)
    []

/-- Source `selectOption` (main.go, lines 41-51); the prompt's error is
discarded. -/
def selectOption (w : World) (keyValueOptions : GoMap) : Str :=
  (w.showSelect (selectOptions w keyValueOptions)).1

/-- How a run ends. -/
inductive Exit
  /-- `main` returned. -/
  | returned
  /-- `log.Fatal` or `log.Fatalf`: the message is logged and the process
  exits with status 1. -/
  | fatal
  /-- A run-time panic. -/
  | panicked
  deriving DecidableEq

/-- What a run of the program does. -/
structure Outcome where
  exit : Exit
  /-- Log lines written before `log.SetOutput(f)`, to standard error. -/
  stderr : List LogEntry
  /-- Log lines appended to the log file. -/
  logFile : List LogEntry
  /-- The generation request sent to the server. -/
  request : Option GenerateRequest
  /-- The accumulated response `genResp` once `Generate` has returned
  without an error. -/
  genResp : Option Str
  /-- The map `respJSON` passed to `selectOption`. -/
  respJSON : Option GoMap
  /-- What `fmt.Print` wrote to standard output. -/
  stdout : List Str

/-- The progress callback passed to `Pull` (main.go, lines 82-85). -/
def pullCallback (log : List LogEntry) (prog : ProgressResponse) : List LogEntry × Option GoErr :=
  (log ++ [.progress prog], none)

/-- The response callback passed to `Generate` (main.go, lines 106-111);
its state is the variable `genResp` and the log. -/
def generateCallback (st : Str × List LogEntry) (resp : GenerateResponse) :
    (Str × List LogEntry) × Option GoErr :=
  ((st.1 ++ resp.Response, st.2 ++ [.response resp]), none)

/-- The command string, `strings.Join(os.Args[1:], " ")`. -/
def commandOf (rest : List Str) : Str := stringsJoin rest " ".toList

/-- The request built at main.go, lines 94-105. -/
def generateRequest (goos command : Str) : GenerateRequest :=
  { Model := ollamaModel
    System := stringsJoin
      [ ("You are a CLI completion tool from the UNIX man pages and you show all possible " ++
          "subcommands and flags as key value pairs,").toList,
        ("where the key is the subcommand/flag and the value is the description. " ++
          "The commands should be available on the").toList,
        goos,
        "operating system.".toList,
        "Please respond using JSON".toList ] " ".toList
    Prompt := command
    Format := "json".toList }

/-- A run that ends in `log.Fatal`/`log.Fatalf` after the log file has been
opened. -/
def fatalExit (logFile : List LogEntry) (request : Option GenerateRequest)
    (genResp : Option Str) : Outcome :=
  { exit := .fatal, stderr := [], logFile := logFile, request := request,
    genResp := genResp, respJSON := none, stdout := [] }

/-- Source `main` (main.go, lines 53-122).  The deferred `f.Close()` and
`cmd.Wait()` run when `main` returns and leave no trace in the outcome;
`log.Fatal` and `log.Fatalf` exit the process without running them. -/
def main (w : World) : Outcome :=
  let logPath := (getLogPath w.os).1
  match w.openFile logPath with
  | some err =>
    { exit := .fatal, stderr := [.fatalf "error opening file: %v".toList (some err)],
      logFile := [], request := none, genResp := none, respJSON := none, stdout := [] }
  | none =>
  match w.setenv "OLLAMA_HOST".toList ollamaHost with
  | some envErr =>
    fatalExit [.fatalf "failed to set the `OLLAMA_HOST` env var: %s".toList (some envErr)] none none
  | none =>
  match w.cmdStart with
  | some startCmdErr =>
    fatalExit [.fatalf "Failed to start cmd: %v".toList (some startCmdErr)] none none
  | none =>
  let log0 := [LogEntry.println "Ollama server has started".toList]
  let err := w.clientFromEnvironment
  match err with
  | some _ => fatalExit (log0 ++ [.fatal err]) none none
  | none =>
  let pullReply := w.pull { Model := ollamaModel, Name := ollamaModel }
  match clientStream pullCallback pullReply.err pullReply.messages log0 with
  | (log1, some _) =>
    fatalExit (log1 ++ [.fatalf "could not pull the code llama model: %s".toList err]) none none
  | (log1, none) =>
  match w.args with
  | [] =>
    -- `os.Args[1:]` of an empty slice: slice bounds out of range
    { exit := .panicked, stderr := [], logFile := log1, request := none, genResp := none,
      respJSON := none, stdout := [] }
  | _ :: rest =>
  let command := commandOf rest
  let req := generateRequest w.goos command
  let genReply := w.generate req
  match clientStream generateCallback genReply.err genReply.messages ([], log1) with
  | ((_, log2), some genErr) =>
    fatalExit (log2 ++ [.fatalf "could not get a response: %v".toList (some genErr)]) (some req) none
  | ((genResp, log2), none) =>
  match jsonUnmarshal genResp with
  | .error unmarshErr =>
    fatalExit (log2 ++ [.fatalf "could not parse Ollama response: %s".toList (some unmarshErr)])
      (some req) (some genResp)
  | .ok respJSON =>
  let selected := selectOption w respJSON
  match stringsSplit selected "(".toList with
  | [] =>
    -- index 0 of an empty slice: index out of range
    { exit := .panicked, stderr := [], logFile := log2, request := some req,
      genResp := some genResp, respJSON := some respJSON, stdout := [] }
  | first :: _ =>
    { exit := .returned, stderr := [], logFile := log2, request := some req,
      genResp := some genResp, respJSON := some respJSON,
      stdout := [command ++ " ".toList ++ first] }

/-! ## Vocabulary of the statements -/

/-- The text accumulated from a stream of responses: their `Response`
fields concatenated in arrival order. -/
def accumulated (msgs : List GenerateResponse) : Str :=
  (msgs.map GenerateResponse.Response).flatten

/-- The pull request the program sends. -/
def pullRequest : PullRequest := { Model := ollamaModel, Name := ollamaModel }

/-- The log file is open, the environment variable is set, the server
process has started and the client has been built. -/
def ServerReady (w : World) : Prop :=
  w.openFile (getLogPath w.os).1 = none ∧
  w.setenv "OLLAMA_HOST".toList ollamaHost = none ∧
  w.cmdStart = none ∧
  w.clientFromEnvironment = none

/-- Every stage up to and including the generation request succeeds;
`rest` are the arguments after the program name. -/
def Generated (w : World) (rest : List Str) : Prop :=
  ServerReady w ∧
  (w.pull pullRequest).err = none ∧
  (∃ prog, w.args = prog :: rest) ∧
  (w.generate (generateRequest w.goos (commandOf rest))).err = none

/-- Every stage before the selection succeeds, with `m` the decoded
response. -/
def Succeeds (w : World) (rest : List Str) (m : GoMap) : Prop :=
  Generated w rest ∧
  jsonUnmarshal (accumulated (w.generate (generateRequest w.goos (commandOf rest))).messages)
    = .ok m

/-- Some stage fails fatally: the log file cannot be opened, the
environment variable cannot be set, the server fails to start, the client
cannot be built, the model pull fails, the generation fails, or the
response does not decode. -/
def StageFails (w : World) : Prop :=
  w.openFile (getLogPath w.os).1 ≠ none ∨
  w.setenv "OLLAMA_HOST".toList ollamaHost ≠ none ∨
  w.cmdStart ≠ none ∨
  w.clientFromEnvironment ≠ none ∨
  (w.pull pullRequest).err ≠ none ∨
  ∃ prog rest, w.args = prog :: rest ∧
    ((w.generate (generateRequest w.goos (commandOf rest))).err ≠ none ∨
     ∃ e, jsonUnmarshal
        (accumulated (w.generate (generateRequest w.goos (commandOf rest))).messages) = .error e)

/-- The log file of a run up to the end of the generation stage. -/
def successLog (w : World) (rest : List Str) : List LogEntry :=
  LogEntry.println "Ollama server has started".toList ::
    (w.pull pullRequest).messages.map LogEntry.progress ++
    (w.generate (generateRequest w.goos (commandOf rest))).messages.map LogEntry.response

/-- The entries of a map whose value is a plain string, as (key,
description) pairs. -/
def stringEntries (m : GoMap) : List (Str × Str) :=
  m.filterMap fun entry =>
    match entry with
    | (k, .string d) => some (k, d)
    | _ => none

/-- The top-level value of a JSON text is an object. -/
def DecodesAsObject (text : Str) : Prop :=
  ∃ m e, jsonDecode text = some (.object m, e)

/-- The text is not valid JSON, or its top-level value is an array, a
number, a string or a boolean. -/
def DecodesAsNeitherObjectNorNull (text : Str) : Prop :=
  jsonDecode text = none ∨
  ∃ v e, jsonDecode text = some (v, e) ∧
    ((∃ l, v = .array l) ∨ (∃ n, v = .number n) ∨ (∃ x, v = .string x) ∨ (∃ b, v = .bool b))

/-- A path element that `path.Clean` keeps as it is: non-empty, without a
slash, and neither `.` nor `..`. -/
def NormalElem (c : Str) : Prop :=
  c ≠ [] ∧ '/' ∉ c ∧ c ≠ ['.'] ∧ c ≠ ['.', '.']

instance (c : Str) : Decidable (NormalElem c) := by
  unfold NormalElem
  exact inferInstance

/-- The absolute path `/c1/c2/.../cn` with the elements `cs`. -/
def absPath (cs : List Str) : Str :=
  (cs.map fun c => '/' :: c).flatten

/-- The state directory `getLogPath` uses, when it can be determined. -/
def stateDir (os : OsEnv) : Option Str :=
  match os.lookupEnv "XDG_STATE_HOME".toList with
  | some v => some v
  | none =>
    match os.userHomeDir with
    | .error _ => none
    | .ok homeDir => some (pathJoin [homeDir, "state".toList])

/-! ## Concrete runs -/

/-- `pterm.Green` on a terminal with colours enabled: the text between the
ANSI codes for green and for reset. -/
def ansiGreen (d : Str) : Str := "\x1b[32m".toList ++ d ++ "\x1b[0m".toList

/-- A prompt at which the user picks the option with index `i`; with fewer
options the prompt fails and yields the empty selection. -/
def pick (i : Nat) (options : List Str) : Str × Option GoErr :=
  match options.get? i with
  | some o => (o, none)
  | none => ([], some (.errorString "no such option".toList))

/-- An operating system with `XDG_STATE_HOME` set to `xdg` (unset for
`none`), home directory `/home/u`, and a writable file system. -/
def demoOs (xdg : Option String) : OsEnv :=
  { lookupEnv := fun key => if key = "XDG_STATE_HOME".toList then xdg.map String.toList else none
    userHomeDir := .ok "/home/u".toList
    mkdirAll := fun _ => none }

/-- A run with arguments `args` in which the server starts, the pull ends
with `pullErr`, the generation delivers `fragments` and ends with `genErr`,
maps are visited in insertion order and the user picks option `i`. -/
def demoWorld (args : List String) (pullErr : Option GoErr) (fragments : List String)
    (genErr : Option GoErr) (i : Nat) : World :=
  { args := args.map String.toList
    goos := "linux".toList
    os := demoOs (some "/home/u/.local/state")
    openFile := fun _ => none
    setenv := fun _ _ => none
    cmdStart := none
    clientFromEnvironment := none
    pull := fun _ =>
      { messages := [{ Status := "success".toList, Digest := [], Total := 0, Completed := 0 }]
        err := pullErr }
    generate := fun _ =>
      { messages := fragments.map fun f => { Response := f.toList, Done := false }
        err := genErr }
    rangeOrder := fun m => m
    rangeOrder_perm := fun m => List.Perm.refl m
    green := ansiGreen
    showSelect := pick i }

/-- The error value a log line carries as its argument, if any. -/
def LogEntry.errorLogged : LogEntry → Option GoErr
  | .fatalf _ arg => arg
  | .fatal arg => arg
  | _ => none

/-- Scenario 1: `revman git`, the user picks the first option. -/
def gitWorld : World :=
  demoWorld ["revman", "git"] none
    ["\x7b\"commit\":\"Record ", "changes\",\"push\":\"Update remote refs\"\x7d"] none 0

/-- Scenario 2: `revman ls -`, the user picks the second option. -/
def lsWorld : World :=
  demoWorld ["revman", "ls", "-"] none
    ["\x7b\"-l\":\"long listing\",\"-a\":\"show hidden files\"\x7d"] none 1

/-- Scenario 3: the response is a truncated object. -/
def truncatedWorld : World :=
  demoWorld ["revman", "git"] none ["\x7b\"commit\":\"Rec"] none 0

/-- Scenario 4: one description is a nested object. -/
def nestedWorld : World :=
  demoWorld ["revman", "foo"] none ["\x7b\"foo\":\x7b\"nested\":\"obj\"\x7d,\"bar\":\"ok\"\x7d"] none 0

/-- A run of `revman find` in which the model offers the operator `(`. -/
def findWorld : World :=
  demoWorld ["revman", "find"] none ["\x7b\"(\":\"open a group\"\x7d"] none 0

/-- A run in which the model answers `null`. -/
def nullWorld : World :=
  demoWorld ["revman", "git"] none ["null"] none 0

/-- A run in which the model answers with a bare array. -/
def arrayWorld : World :=
  demoWorld ["revman", "git"] none ["[\"commit\",", "\"push\"]"] none 0

/-- A run in which the model offers nothing. -/
def emptyWorld : World :=
  demoWorld ["revman", "git"] none ["\x7b\x7d"] none 0

/-- A run in which the model pull fails. -/
def pullFailsWorld : World :=
  demoWorld ["revman", "git"] (some (.errorString "connection refused".toList)) [] none 0

/-! ## Streams and callbacks -/

theorem clientStream_pullCallback (final : Option GoErr) (msgs : List ProgressResponse)
    (log : List LogEntry) :
    clientStream pullCallback final msgs log = (log ++ msgs.map LogEntry.progress, final) := by
  induction msgs generalizing log with
  | nil => simp [clientStream]
  | cons r rest ih => simp [clientStream, pullCallback, ih]

theorem clientStream_generateCallback (final : Option GoErr) (msgs : List GenerateResponse)
    (g : Str) (log : List LogEntry) :
    clientStream generateCallback final msgs (g, log) =
      ((g ++ accumulated msgs, log ++ msgs.map LogEntry.response), final) := by
  induction msgs generalizing g log with
  | nil => simp [clientStream, accumulated]
  | cons r rest ih =>
    simp only [clientStream, generateCallback, ih]
    simp [accumulated]

/-! ## Splitting at a single character -/

theorem genSplitLoop_ne_nil (sep : Str) (k : Nat) (s : Str) : genSplitLoop sep k s ≠ [] := by
  cases k with
  | zero => simp [genSplitLoop]
  | succ k =>
    unfold genSplitLoop
    split <;> simp

theorem stringsSplit_paren_ne_nil (s : Str) : stringsSplit s "(".toList ≠ [] := by
  unfold stringsSplit
  simp only [String.toList]
  rw [if_neg (by decide)]
  exact genSplitLoop_ne_nil _ _ _

theorem stringsIndex_single (x : Char) (p t : Str) (hp : x ∉ p) :
    stringsIndex (p ++ x :: t) [x] = some p.length := by
  induction p with
  | nil => simp [stringsIndex, hasPrefix]
  | cons c p ih =>
    have hc : c ≠ x := fun h => hp (by simp [h])
    have hp2 : x ∉ p := fun h => hp (by simp [h])
    simp [stringsIndex, hasPrefix, hc, ih hp2]

theorem stringsIndex_single_none (x : Char) (p : Str) (hp : x ∉ p) :
    stringsIndex p [x] = none := by
  induction p with
  | nil => simp [stringsIndex]
  | cons c p ih =>
    have hc : c ≠ x := fun h => hp (by simp [h])
    have hp2 : x ∉ p := fun h => hp (by simp [h])
    simp [stringsIndex, hasPrefix, hc, ih hp2]

/-- The first element of a split at a character is the text before the
first occurrence of that character. -/
theorem stringsSplit_single_head (x : Char) (p t : Str) (hp : x ∉ p) :
    ∃ tl, stringsSplit (p ++ x :: t) [x] = p :: tl := by
  unfold stringsSplit
  rw [if_neg (by simp)]
  have hidx := stringsIndex_single x p t hp
  have hcount : stringsCount (p ++ x :: t) [x] =
      countLoop [x] (p ++ x :: t).length (List.drop (p.length + 1) (p ++ x :: t)) + 1 := by
    unfold stringsCount
    rw [if_neg (by simp)]
    simp [countLoop, hidx]
  simp only [hcount]
  split
  · have : (p ++ x :: t).length + 1 - 1 = (p.length + t.length) + 1 := by simp; omega
    rw [this]
    simp [genSplitLoop, hidx]
  · simp [genSplitLoop, hidx]

/-- A text without the separator is the only element of its split. -/
theorem stringsSplit_single_none (x : Char) (p : Str) (hp : x ∉ p) :
    stringsSplit p [x] = [p] := by
  unfold stringsSplit
  rw [if_neg (by simp)]
  have hidx := stringsIndex_single_none x p hp
  have hcount : stringsCount p [x] = 0 := by
    unfold stringsCount
    rw [if_neg (by simp)]
    simp [countLoop, hidx]
  simp [hcount, genSplitLoop]

/-- The first element of the split of a label at `(` is the key followed
by the space of the label format. -/
theorem stringsSplit_optionLabel (green : Str → Str) (k d : Str) (hk : '(' ∉ k) :
    ∃ tl, stringsSplit (optionLabel green k d) "(".toList = (k ++ " ".toList) :: tl := by
  have hp : '(' ∉ k ++ [' '] := by
    simp only [List.mem_append, List.mem_singleton, not_or]
    exact ⟨hk, by decide⟩
  obtain ⟨tl, h⟩ := stringsSplit_single_head '(' (k ++ [' ']) (green d ++ [')']) hp
  refine ⟨tl, ?_⟩
  have e : optionLabel green k d = (k ++ [' ']) ++ '(' :: (green d ++ [')']) := by
    simp [optionLabel]
  rw [e]
  exact h

/-! ## The stages of `main` -/

theorem main_of_succeeds (w : World) (rest : List Str) (m : GoMap) (h : Succeeds w rest m) :
    ∃ first tl,
      stringsSplit (selectOption w m) "(".toList = first :: tl ∧
      main w =
        { exit := .returned, stderr := [], logFile := successLog w rest,
          request := some (generateRequest w.goos (commandOf rest)),
          genResp := some (accumulated (w.generate (generateRequest w.goos (commandOf rest))).messages),
          respJSON := some m,
          stdout := [commandOf rest ++ " ".toList ++ first] } := by
  obtain ⟨⟨⟨h1, h2, h3, h4⟩, h5, ⟨prog, h6⟩, h7⟩, h8⟩ := h
  obtain ⟨first, tl, hs⟩ := List.exists_cons_of_ne_nil (stringsSplit_paren_ne_nil (selectOption w m))
  refine ⟨first, tl, hs, ?_⟩
  unfold pullRequest at h5
  unfold main
  simp only [h1, h2, h3, h4, h5, h6, h7, clientStream_pullCallback, clientStream_generateCallback,
    List.nil_append, h8, hs]
  simp [successLog, pullRequest]

theorem main_of_pull_error (w : World) (e : GoErr) (h : ServerReady w)
    (hp : (w.pull pullRequest).err = some e) :
    main w = fatalExit
      (LogEntry.println "Ollama server has started".toList ::
        (w.pull pullRequest).messages.map LogEntry.progress ++
        [.fatalf "could not pull the code llama model: %s".toList none]) none none := by
  obtain ⟨h1, h2, h3, h4⟩ := h
  unfold pullRequest at hp
  unfold main
  simp only [h1, h2, h3, h4, hp, clientStream_pullCallback]
  simp [pullRequest]

theorem main_of_decode_error (w : World) (rest : List Str) (e : GoErr) (h : Generated w rest)
    (hd : jsonUnmarshal (accumulated (w.generate (generateRequest w.goos (commandOf rest))).messages)
      = .error e) :
    main w = fatalExit
      (successLog w rest ++ [.fatalf "could not parse Ollama response: %s".toList (some e)])
      (some (generateRequest w.goos (commandOf rest)))
      (some (accumulated (w.generate (generateRequest w.goos (commandOf rest))).messages)) := by
  obtain ⟨⟨h1, h2, h3, h4⟩, h5, ⟨prog, h6⟩, h7⟩ := h
  unfold pullRequest at h5
  unfold main
  simp only [h1, h2, h3, h4, h5, h6, h7, clientStream_pullCallback, clientStream_generateCallback,
    List.nil_append, hd]
  simp [successLog, pullRequest]

/-- A run that has a request, an accumulated response, a decoded map or an
output, or that returns, has passed the corresponding stages. -/
theorem stages_of_main (w : World) :
    (∀ r, (main w).request = some r →
      ∃ prog rest, w.args = prog :: rest ∧ r = generateRequest w.goos (commandOf rest)) ∧
    (∀ g, (main w).genResp = some g →
      ∃ rest, Generated w rest ∧
        g = accumulated (w.generate (generateRequest w.goos (commandOf rest))).messages) ∧
    ((main w).exit = .returned ∨ (main w).stdout ≠ [] ∨ (main w).respJSON ≠ none →
      ∃ rest m, Succeeds w rest m ∧ (main w).respJSON = some m) := by
  unfold main
  simp only [clientStream_pullCallback, clientStream_generateCallback, List.nil_append]
  split
  · exact ⟨fun r hr => by simp at hr, fun g hg => by simp at hg, fun h => by simp at h⟩
  next h1 =>
  split
  · exact ⟨fun r hr => by simp [fatalExit] at hr, fun g hg => by simp [fatalExit] at hg,
      fun h => by simp [fatalExit] at h⟩
  next h2 =>
  split
  · exact ⟨fun r hr => by simp [fatalExit] at hr, fun g hg => by simp [fatalExit] at hg,
      fun h => by simp [fatalExit] at h⟩
  next h3 =>
  split
  · exact ⟨fun r hr => by simp [fatalExit] at hr, fun g hg => by simp [fatalExit] at hg,
      fun h => by simp [fatalExit] at h⟩
  next h4 =>
  split
  · exact ⟨fun r hr => by simp [fatalExit] at hr, fun g hg => by simp [fatalExit] at hg,
      fun h => by simp [fatalExit] at h⟩
  next h5 =>
  split
  · exact ⟨fun r hr => by simp at hr, fun g hg => by simp at hg, fun h => by simp at h⟩
  next prog rest h6 =>
  simp only [Prod.mk.injEq] at h5
  have hgen0 : ServerReady w := ⟨h1, h2, h3, h4⟩
  split
  next h7 =>
    refine ⟨fun r hr => ?_, fun g hg => by simp [fatalExit] at hg,
      fun h => by simp [fatalExit] at h⟩
    simp only [fatalExit, Option.some.injEq] at hr
    exact ⟨prog, rest, h6, hr.symm⟩
  next h7 =>
  simp only [Prod.mk.injEq] at h7
  obtain ⟨⟨hg, -⟩, h7e⟩ := h7
  subst hg
  have hgen : Generated w rest := ⟨hgen0, h5.2, ⟨prog, h6⟩, h7e⟩
  split
  next h8 =>
    refine ⟨fun r hr => ?_, fun g hg => ?_, fun h => by simp [fatalExit] at h⟩
    · simp only [fatalExit, Option.some.injEq] at hr
      exact ⟨prog, rest, h6, hr.symm⟩
    · simp only [fatalExit, Option.some.injEq] at hg
      exact ⟨rest, hgen, hg.symm⟩
  next m h8 =>
  have hs : Succeeds w rest m := ⟨hgen, h8⟩
  split
  next h9 => exact absurd h9 (stringsSplit_paren_ne_nil _)
  next first tl h9 =>
  refine ⟨?_, ?_, ?_⟩
  · intro r hr
    simp only [Option.some.injEq] at hr
    exact ⟨prog, rest, h6, hr.symm⟩
  · intro g hg
    simp only [Option.some.injEq] at hg
    exact ⟨rest, hgen, hg.symm⟩
  · intro _
    exact ⟨rest, m, hs, rfl⟩

/-! ## Joining -/

theorem foldl_join (sep : Str) (rest : List Str) (e : Str) :
    rest.foldl (fun b s => b ++ sep ++ s) e = e ++ (rest.map fun s => sep ++ s).flatten := by
  induction rest generalizing e with
  | nil => simp
  | cons a rest ih =>
    simp only [List.foldl_cons, List.map_cons, List.flatten_cons]
    rw [ih]
    simp [List.append_assoc]

theorem intercalate_cons (sep : Str) (e : Str) (rest : List Str) :
    sep.intercalate (e :: rest) = e ++ (rest.map fun s => sep ++ s).flatten := by
  induction rest generalizing e with
  | nil => simp [List.intercalate]
  | cons a rest ih =>
    have := ih a
    simp only [List.intercalate, List.intersperse, List.flatten_cons, List.map_cons] at this ⊢
    rw [this]
    simp

theorem stringsJoin_eq_intercalate (elems : List Str) (sep : Str) :
    stringsJoin elems sep = sep.intercalate elems := by
  match elems with
  | [] => simp [stringsJoin, List.intercalate]
  | [e] => simp [stringsJoin, List.intercalate]
  | e :: a :: rest =>
    rw [intercalate_cons]
    simp only [stringsJoin]
    exact foldl_join sep (a :: rest) e

theorem selectOptions_foldl (green : Str → Str) (entries : GoMap) (acc : List Str) :
    entries.foldl
      (fun options entry =>
        match entry with
        | (compl, .string desc) => options ++ [optionLabel green compl desc]
        | _ => options) acc
    = acc ++ (stringEntries entries).map fun e => optionLabel green e.1 e.2 := by
  induction entries generalizing acc with
  | nil => simp [stringEntries]
  | cons entry entries ih =>
    obtain ⟨k, v⟩ := entry
    cases v <;> simp [ih, stringEntries]

/-! ## Adequacy of the fuel -/

/-- The fuel of `cleanLoop` is adequate: once it covers the length of the
remaining input, more fuel does not change the result. -/
theorem cleanLoop_fuel (rooted : Bool) (fuel : Nat) :
    ∀ (path rout : List Char) (dotdot : Nat), path.length ≤ fuel →
      cleanLoop rooted (fuel + 1) path rout dotdot = cleanLoop rooted fuel path rout dotdot := by
  induction fuel with
  | zero =>
    intro path rout dotdot h
    have : path = [] := List.length_eq_zero.mp (Nat.le_zero.mp h)
    subst this
    simp [cleanLoop]
  | succ fuel ih =>
    intro path rout dotdot h
    cases path with
    | nil => simp [cleanLoop]
    | cons c rest =>
      have hrest : rest.length ≤ fuel := by simpa using h
      have htail : rest.tail.length ≤ fuel := by
        have := List.length_tail rest
        omega
      conv_lhs => rw [cleanLoop]
      conv_rhs => rw [cleanLoop]
      by_cases h1 : c = '/'
      · rw [if_pos h1, if_pos h1]
        exact ih _ _ _ hrest
      · rw [if_neg h1, if_neg h1]
        split
        · exact ih _ _ _ hrest
        · split
          · split
            · exact ih _ _ _ htail
            · split
              · exact ih _ _ _ htail
              · exact ih _ _ _ htail
          · apply ih
            have hd : ((c :: rest).dropWhile (· ≠ '/')).length ≤ (c :: rest).length - 1 := by
              have : (c :: rest).dropWhile (· ≠ '/') = rest.dropWhile (· ≠ '/') := by
                simp [List.dropWhile_cons, h1]
              rw [this]
              have := (List.dropWhile_sublist (fun x => decide (x ≠ '/')) (l := rest)).length_le
              simpa using this
            simp only [List.length_cons, Nat.add_sub_cancel] at hd
            omega

theorem stringsIndex_nil (sep : Str) (h : sep ≠ []) : stringsIndex [] sep = none := by
  simp [stringsIndex, h]

/-- The fuel of `countLoop` is adequate: once it exceeds the length of the
text, more fuel does not change the count. -/
theorem countLoop_fuel (sep : Str) (hsep : sep ≠ []) (fuel : Nat) :
    ∀ s : Str, s.length < fuel → countLoop sep (fuel + 1) s = countLoop sep fuel s := by
  induction fuel with
  | zero => intro s h; omega
  | succ fuel ih =>
    intro s h
    conv_lhs => rw [countLoop]
    conv_rhs => rw [countLoop]
    cases hi : stringsIndex s sep with
    | none => rfl
    | some i =>
      simp only
      have hs : s ≠ [] := by
        rintro rfl
        rw [stringsIndex_nil sep hsep] at hi
        exact absurd hi (by simp)
      have hl : 0 < s.length := List.length_pos.mpr hs
      have hp : 0 < sep.length := List.length_pos.mpr hsep
      rw [ih]
      rw [List.length_drop]
      omega

/-! ## Cleaning a canonical path -/

theorem absPath_cons (c : Str) (cs : List Str) : absPath (c :: cs) = '/' :: (c ++ absPath cs) := by
  simp [absPath]

theorem absPath_append (cs : List Str) (e : Str) : absPath (cs ++ [e]) = absPath cs ++ '/' :: e := by
  simp [absPath]

theorem absPath_boundary (cs : List Str) : absPath cs = [] ∨ (absPath cs).head? = some '/' := by
  cases cs with
  | nil => exact Or.inl rfl
  | cons c cs => exact Or.inr (by simp [absPath_cons])

theorem takeWhile_elem (c t : Str) (hc : '/' ∉ c) (ht : t = [] ∨ t.head? = some '/') :
    (c ++ t).takeWhile (· ≠ '/') = c ∧ (c ++ t).dropWhile (· ≠ '/') = t := by
  induction c with
  | nil =>
    rcases ht with rfl | ht
    · simp
    · cases t with
      | nil => simp
      | cons x t =>
        simp only [List.head?_cons, Option.some.injEq] at ht
        subst ht
        simp
  | cons x c ih =>
    have hx : x ≠ '/' := fun h => hc (by simp [h])
    have hc2 : '/' ∉ c := fun h => hc (by simp [h])
    obtain ⟨h1, h2⟩ := ih hc2
    simp only [List.cons_append, List.takeWhile_cons, List.dropWhile_cons, ne_eq, hx,
      not_false_eq_true, decide_True, if_true, h1, h2, and_self]

/-- One real path element of a rooted path is copied to the output. -/
theorem cleanLoop_elem (c t rout : Str) (fuel : Nat) (hc : NormalElem c)
    (ht : t = [] ∨ t.head? = some '/') :
    cleanLoop true (fuel + 1) (c ++ t) rout 1 =
      cleanLoop true fuel t (c.reverse ++ (if rout.length ≠ 1 then '/' :: rout else rout)) 1 := by
  obtain ⟨hne, hslash, hdot, hdotdot⟩ := hc
  obtain ⟨h1, h2⟩ := takeWhile_elem c t hslash ht
  cases c with
  | nil => exact absurd rfl hne
  | cons x c =>
    have hx : x ≠ '/' := fun h => hslash (by simp [h])
    have hnotdot : ¬ (x = '.' ∧ (c ++ t = [] ∨ (c ++ t).head? = some '/')) := by
      rintro ⟨rfl, h⟩
      cases c with
      | nil => exact hdot rfl
      | cons y c =>
        have hy : y ≠ '/' := fun h => hslash (by simp [h])
        simp [hy] at h
    have hnotdotdot : ¬ (x = '.' ∧ (c ++ t).head? = some '.' ∧
        ((c ++ t).tail = [] ∨ (c ++ t).tail.head? = some '/')) := by
      rintro ⟨rfl, h, h3⟩
      cases c with
      | nil =>
        rcases ht with rfl | ht
        · simp at h
        · simp only [List.nil_append] at h
          rw [ht] at h
          simp at h
      | cons y c =>
        simp only [List.cons_append, List.head?_cons, Option.some.injEq] at h
        subst h
        cases c with
        | nil => exact hdotdot rfl
        | cons z c =>
          have hz : z ≠ '/' := fun h => hslash (by simp [h])
          simp [hz] at h3
    rw [List.cons_append] at h1 h2 ⊢
    rw [cleanLoop]
    rw [if_neg hx, if_neg hnotdot, if_neg hnotdotdot]
    simp only [h1, h2]
    simp

/-- The loop of `path.Clean` copies the canonical remainder of a rooted
path unchanged. -/
theorem cleanLoop_abs (cs : List Str) (hall : ∀ c ∈ cs, NormalElem c) (rout : Str)
    (hr : 1 < rout.length) (fuel : Nat) (hf : (absPath cs).length ≤ fuel) :
    cleanLoop true fuel (absPath cs) rout 1 = (absPath cs).reverse ++ rout := by
  induction cs generalizing rout fuel with
  | nil =>
    cases fuel <;> simp [absPath, cleanLoop]
  | cons c cs ih =>
    have hc : NormalElem c := hall c (by simp)
    have hall2 : ∀ c ∈ cs, NormalElem c := fun c h => hall c (by simp [h])
    rw [absPath_cons] at hf ⊢
    have hclen : 0 < c.length := List.length_pos.mpr hc.1
    simp only [List.length_cons, List.length_append] at hf
    obtain ⟨f1, rfl⟩ : ∃ f1, fuel = f1 + 1 + 1 := ⟨fuel - 2, by omega⟩
    rw [cleanLoop, if_pos rfl]
    rw [cleanLoop_elem c (absPath cs) rout f1 hc (absPath_boundary cs)]
    have hne : rout.length ≠ 1 := by omega
    rw [if_pos hne]
    rw [ih hall2 _ (by simp; omega) f1 (by omega)]
    simp

theorem pathClean_absPath (cs : List Str) (hne : cs ≠ []) (hall : ∀ c ∈ cs, NormalElem c) :
    pathClean (absPath cs) = absPath cs := by
  cases cs with
  | nil => exact absurd rfl hne
  | cons c cs =>
    have hc : NormalElem c := hall c (by simp)
    have hall2 : ∀ c ∈ cs, NormalElem c := fun c h => hall c (by simp [h])
    have hclen : 0 < c.length := List.length_pos.mpr hc.1
    rw [absPath_cons]
    unfold pathClean
    simp only [decide_True, if_true, List.length_cons, List.length_append]
    obtain ⟨f1, hf1⟩ : ∃ f1, c.length + (absPath cs).length + 1 = f1 + 1 := ⟨_, rfl⟩
    rw [hf1, cleanLoop_elem c (absPath cs) ['/'] f1 hc (absPath_boundary cs)]
    simp only [List.length_singleton, ne_eq, not_true_eq_false, if_false]
    rw [cleanLoop_abs cs hall2 _ (by simp; omega) f1 (by omega)]
    simp

theorem pathJoin_absPath (cs : List Str) (e : Str) (hne : cs ≠ [])
    (hall : ∀ c ∈ cs, NormalElem c) (he : NormalElem e) :
    pathJoin [absPath cs, e] = absPath (cs ++ [e]) := by
  have hlen : 0 < (absPath cs).length := by
    cases cs with
    | nil => exact absurd rfl hne
    | cons c cs => simp [absPath_cons]
  have hne2 : absPath cs ≠ [] := List.length_pos.mp hlen
  unfold pathJoin
  simp only [List.map_cons, List.map_nil, List.sum_cons, List.sum_nil, List.foldl_cons,
    List.foldl_nil, List.length_nil]
  rw [if_neg (by omega)]
  simp only [Nat.lt_irrefl, false_or, if_false, if_pos hne2, List.nil_append, hlen, true_or,
    if_true]
  rw [List.append_assoc, List.singleton_append, ← absPath_append]
  apply pathClean_absPath
  · simp
  · intro c hc
    rcases List.mem_append.mp hc with h | h
    · exact hall c h
    · rw [List.mem_singleton.mp h]; exact he

/-! ## The claims -/

/-- C2: for every decoded response map, the labels `selectOption` hands to
the prompt are, up to order, exactly one label `key (styled description)`
per entry whose value is a plain string, with key and description
unchanged; entries with any other value contribute no label. -/
theorem selectOptions_labels_string_entries (w : World) (m : GoMap) :
    (selectOptions w m).Perm
      ((stringEntries m).map fun e => e.1 ++ " (".toList ++ w.green e.2 ++ ")".toList) ∧
    (∀ label, label ∈ selectOptions w m ↔
      ∃ k d, (k, JsonValue.string d) ∈ m ∧ label = k ++ " (".toList ++ w.green d ++ ")".toList) ∧
    (selectOptions w m).length = (stringEntries m).length := by
  have hperm : (selectOptions w m).Perm
      ((stringEntries m).map fun e => optionLabel w.green e.1 e.2) := by
    unfold selectOptions
    rw [selectOptions_foldl, List.nil_append]
    exact ((w.rangeOrder_perm m).filterMap _).map _
  have hmem : ∀ k d, (k, d) ∈ stringEntries m ↔ (k, JsonValue.string d) ∈ m := by
    intro k d
    unfold stringEntries
    rw [List.mem_filterMap]
    constructor
    · rintro ⟨⟨k1, v⟩, hin, hv⟩
      cases v <;> simp at hv
      obtain ⟨rfl, rfl⟩ := hv
      exact hin
    · intro hin
      exact ⟨(k, .string d), hin, rfl⟩
  refine ⟨hperm, ?_, ?_⟩
  · intro label
    rw [hperm.mem_iff, List.mem_map]
    constructor
    · rintro ⟨⟨k, d⟩, hin, rfl⟩
      exact ⟨k, d, (hmem k d).1 hin, rfl⟩
    · rintro ⟨k, d, hin, rfl⟩
      exact ⟨(k, d), (hmem k d).2 hin, rfl⟩
  · rw [hperm.length_eq, List.length_map]

/-- C2, scenario 4: the map decoded from an object with the entries
`foo` (a nested object) and `bar` (the string `ok`) yields only the label
of (`bar`, `ok`). -/
theorem selectOptions_nested_scenario :
    (main nestedWorld).respJSON =
      some [("foo".toList, .object [("nested".toList, .string "obj".toList)]),
            ("bar".toList, .string "ok".toList)] ∧
    selectOptions nestedWorld
      [("foo".toList, .object [("nested".toList, .string "obj".toList)]),
       ("bar".toList, .string "ok".toList)] = ["bar (\x1b[32mok\x1b[0m)".toList] ∧
    (selectOptions nestedWorld
      [("foo".toList, .object [("nested".toList, .string "obj".toList)]),
       ("bar".toList, .string "ok".toList)]).length = 1 :=
  ⟨by rfl, by rfl,
    (selectOptions_labels_string_entries nestedWorld
      [("foo".toList, .object [("nested".toList, .string "obj".toList)]),
       ("bar".toList, .string "ok".toList)]).2.2⟩

/-- C5: for every finite sequence of fragments delivered to the callback of
`Generate`, the callback never returns an error, and the accumulated
response after the stream ends is the concatenation of the fragments in
arrival order, starting from the empty string; the log receives one line
per fragment, in the same order.  In a run whose generation stage
succeeds, `genResp` is that concatenation for the server's stream. -/
theorem genResp_is_concatenation_of_fragments (w : World) (final : Option GoErr)
    (msgs : List GenerateResponse) (log : List LogEntry) :
    (∀ st resp, (generateCallback st resp).2 = none) ∧
    clientStream generateCallback final msgs ([], log) =
      (((msgs.map GenerateResponse.Response).flatten, log ++ msgs.map LogEntry.response), final) ∧
    (∀ rest, Generated w rest →
      (main w).genResp = some
        (((w.generate (generateRequest w.goos (commandOf rest))).messages.map
          GenerateResponse.Response).flatten)) := by
  refine ⟨fun _ _ => rfl, ?_, ?_⟩
  · rw [clientStream_generateCallback]
    simp [accumulated]
  · intro rest hgen
    cases hd : jsonUnmarshal
        (accumulated (w.generate (generateRequest w.goos (commandOf rest))).messages) with
    | error e => rw [main_of_decode_error w rest e hgen hd]; rfl
    | ok m =>
      obtain ⟨first, tl, -, hmain⟩ := main_of_succeeds w rest m ⟨hgen, hd⟩
      rw [hmain]; rfl

/-- C5 on scenario 1: the two fragments of the response arrive in order
and `genResp` is their concatenation. -/
theorem genResp_git_scenario :
    Generated gitWorld ["git".toList] ∧
    (main gitWorld).genResp = some
      "\x7b\"commit\":\"Record changes\",\"push\":\"Update remote refs\"\x7d".toList :=
  have hgen : Generated gitWorld ["git".toList] :=
    ⟨⟨rfl, rfl, rfl, rfl⟩, rfl, ⟨"revman".toList, rfl⟩, rfl⟩
  ⟨hgen, (genResp_is_concatenation_of_fragments gitWorld none [] []).2.2 ["git".toList] hgen⟩

/-- C6: the command string is the arguments after the program name joined
with exactly one space between consecutive arguments, the empty string
when there are none; it is the `Prompt` of the generation request and,
followed by a space, the beginning of the printed output.  A run in which
every stage succeeds sends that request and prints one such string. -/
theorem command_is_joined_arguments (w : World) (prog : Str) (rest : List Str)
    (hargs : w.args = prog :: rest) :
    commandOf rest = " ".toList.intercalate rest ∧
    commandOf [] = [] ∧
    (∀ r, (main w).request = some r → r.Prompt = commandOf rest) ∧
    (∀ out, out ∈ (main w).stdout → (commandOf rest ++ " ".toList) <+: out) ∧
    (∀ m, Succeeds w rest m →
      (∃ r, (main w).request = some r ∧ r.Prompt = commandOf rest) ∧
      ∃ out, (main w).stdout = [out] ∧ (commandOf rest ++ " ".toList) <+: out) := by
  have hrest : ∀ prog1 rest1, w.args = prog1 :: rest1 → rest1 = rest := by
    intro prog1 rest1 h
    rw [hargs] at h
    exact (List.cons.inj h).2.symm
  refine ⟨stringsJoin_eq_intercalate rest _, rfl, ?_, ?_, ?_⟩
  · intro r hr
    obtain ⟨prog1, rest1, h1, rfl⟩ := (stages_of_main w).1 r hr
    rw [hrest prog1 rest1 h1]
    rfl
  · intro out hout
    have hne : (main w).stdout ≠ [] := List.ne_nil_of_mem hout
    obtain ⟨rest1, m, hs, -⟩ := (stages_of_main w).2.2 (Or.inr (Or.inl hne))
    obtain ⟨prog1, h1⟩ := hs.1.2.2.1
    obtain ⟨first, tl, -, hmain⟩ := main_of_succeeds w rest1 m hs
    rw [hmain] at hout
    simp only [List.mem_singleton] at hout
    rw [hout, hrest prog1 rest1 h1]
    exact List.prefix_append _ _
  · intro m hs
    obtain ⟨first, tl, -, hmain⟩ := main_of_succeeds w rest m hs
    rw [hmain]
    exact ⟨⟨_, rfl, rfl⟩, _, rfl, List.prefix_append _ _⟩

/-- C6 on scenario 2: with the arguments `ls` and `-` the command string
is `ls -`; it is the prompt of the request and begins the output. -/
theorem command_ls_scenario :
    lsWorld.args = "revman".toList :: ["ls".toList, "-".toList] ∧
    commandOf ["ls".toList, "-".toList] = "ls -".toList ∧
    (main lsWorld).request = some (generateRequest "linux".toList "ls -".toList) ∧
    (main lsWorld).stdout = ["ls - -a ".toList] ∧
    (commandOf ["ls".toList, "-".toList] ++ " ".toList) <+: "ls - -a ".toList :=
  ⟨rfl, by decide, by rfl, by decide,
    (command_is_joined_arguments lsWorld "revman".toList ["ls".toList, "-".toList] rfl).2.2.2.1
      "ls - -a ".toList (by decide)⟩

/-- C7: in every run in which a stage fails fatally (the log file cannot
be opened, the environment variable cannot be set, the server fails to
start, the client cannot be built, the model pull fails, the generation
fails, or the response does not decode) the run ends in the fatal exit and
nothing is written to standard output; standard output is written only
when every stage before it succeeded. -/
theorem no_output_unless_every_stage_succeeds (w : World) :
    (StageFails w → (main w).exit = .fatal ∧ (main w).stdout = []) ∧
    ((main w).exit = .fatal → (main w).stdout = []) ∧
    ((main w).stdout ≠ [] → ∃ rest m, Succeeds w rest m) := by
  have h3 : (main w).stdout ≠ [] → ∃ rest m, Succeeds w rest m := by
    intro h
    obtain ⟨rest, m, hs, -⟩ := (stages_of_main w).2.2 (Or.inr (Or.inl h))
    exact ⟨rest, m, hs⟩
  have h2 : (main w).exit = .fatal → (main w).stdout = [] := by
    intro hf
    by_contra hne
    obtain ⟨rest, m, hs⟩ := h3 hne
    obtain ⟨first, tl, -, hmain⟩ := main_of_succeeds w rest m hs
    rw [hmain] at hf
    simp at hf
  refine ⟨?_, h2, h3⟩
  intro hf
  have hfatal : (main w).exit = .fatal := by
    unfold main
    simp only [clientStream_pullCallback, clientStream_generateCallback, List.nil_append]
    split
    · rfl
    next h1 =>
    split
    · rfl
    next h2 =>
    split
    · rfl
    next h3 =>
    split
    · rfl
    next h4 =>
    split
    · rfl
    next h5 =>
    simp only [Prod.mk.injEq] at h5
    split
    next h6 =>
      rcases hf with h | h | h | h | h | ⟨prog, rest, h, -⟩
      · exact absurd h1 h
      · exact absurd h2 h
      · exact absurd h3 h
      · exact absurd h4 h
      · exact absurd h5.2 h
      · rw [h6] at h; exact absurd h (by simp)
    next prog rest h6 =>
    split
    · rfl
    next h7 =>
    simp only [Prod.mk.injEq] at h7
    obtain ⟨⟨hg, -⟩, h7e⟩ := h7
    subst hg
    split
    · rfl
    next m h8 =>
    rcases hf with h | h | h | h | h | ⟨prog1, rest1, ha, h | ⟨e, h⟩⟩
    · exact absurd h1 h
    · exact absurd h2 h
    · exact absurd h3 h
    · exact absurd h4 h
    · exact absurd h5.2 h
    · rw [h6] at ha
      obtain ⟨-, rfl⟩ := List.cons.inj ha
      exact absurd h7e h
    · rw [h6] at ha
      obtain ⟨-, rfl⟩ := List.cons.inj ha
      rw [h8] at h
      exact absurd h (by simp)
  exact ⟨hfatal, h2 hfatal⟩

/-- C7 on scenario 3: a truncated JSON object as the model response is a
decode failure; the run is fatal and standard output stays empty. -/
theorem no_output_truncated_scenario :
    StageFails truncatedWorld ∧
    (main truncatedWorld).exit = .fatal ∧ (main truncatedWorld).stdout = [] :=
  have hf : StageFails truncatedWorld :=
    Or.inr (Or.inr (Or.inr (Or.inr (Or.inr
      ⟨"revman".toList, ["git".toList], rfl, Or.inr ⟨.syntaxError, rfl⟩⟩))))
  ⟨hf, (no_output_unless_every_stage_succeeds truncatedWorld).1 hf⟩

/-- C9, what the code does: whenever the model pull fails, with whatever
error `e`, the run is fatal and the last line of the log is the message
`could not pull the code llama model: %s` formatted with the nil value of
the variable `err`, not with the pull error; no line of the log carries an
error value at all, so the detail of `e` is lost. -/
theorem pull_failure_logs_nil_error (w : World) (e : GoErr) (hready : ServerReady w)
    (hpull : (w.pull pullRequest).err = some e) :
    (main w).exit = .fatal ∧
    (main w).logFile.getLast? =
      some (.fatalf "could not pull the code llama model: %s".toList none) ∧
    (∀ entry, entry ∈ (main w).logFile → entry.errorLogged = none) := by
  rw [main_of_pull_error w e hready hpull]
  refine ⟨rfl, ?_, ?_⟩
  · simp [fatalExit, List.getLast?_cons_cons]
    rw [← List.cons_append, List.getLast?_append]
    simp
  · intro entry hin
    simp only [fatalExit, List.mem_cons, List.mem_append, List.mem_map, List.mem_singleton,
      List.not_mem_nil, or_false] at hin
    rcases hin with (rfl | ⟨p, -, rfl⟩) | rfl <;> rfl

/-- C9 at a pull that fails with `connection refused`: the run is fatal,
and the log consists of the start message, the progress line and the
message formatted with nil. -/
theorem pull_failure_connection_refused :
    ServerReady pullFailsWorld ∧
    (pullFailsWorld.pull pullRequest).err = some (.errorString "connection refused".toList) ∧
    (main pullFailsWorld).logFile =
      [.println "Ollama server has started".toList,
       .progress { Status := "success".toList, Digest := [], Total := 0, Completed := 0 },
       .fatalf "could not pull the code llama model: %s".toList none] ∧
    (main pullFailsWorld).exit = .fatal ∧
    (main pullFailsWorld).logFile.getLast? =
      some (.fatalf "could not pull the code llama model: %s".toList none) :=
  have h := pull_failure_logs_nil_error pullFailsWorld (.errorString "connection refused".toList)
    ⟨rfl, rfl, rfl, rfl⟩ rfl
  ⟨⟨rfl, rfl, rfl, rfl⟩, rfl, by rfl, h.1, h.2.1⟩

/-- C10: for every selection string the split at `(` has a first element,
so the index expression never panics, and a run panics only for an empty
argument vector; in particular the empty selection splits into the one
empty string, and a run whose stages succeed and whose prompt yields the
empty selection returns normally and prints the command string followed
by a single space. -/
theorem split_first_defined_and_empty_selection (w : World) :
    (∀ selected, stringsSplit selected "(".toList ≠ []) ∧
    stringsSplit [] "(".toList = [[]] ∧
    ((main w).exit = .panicked → w.args = []) ∧
    (∀ rest m, Succeeds w rest m → selectOption w m = [] →
      (main w).exit = .returned ∧ (main w).stdout = [commandOf rest ++ " ".toList]) := by
  refine ⟨stringsSplit_paren_ne_nil, by decide, ?_, ?_⟩
  · unfold main
    simp only [clientStream_pullCallback, clientStream_generateCallback, List.nil_append]
    split
    · simp
    split
    · simp [fatalExit]
    split
    · simp [fatalExit]
    split
    · simp [fatalExit]
    split
    · simp [fatalExit]
    split
    next h6 => exact fun _ => h6
    split
    · simp [fatalExit]
    split
    · simp [fatalExit]
    split
    next h9 => exact absurd h9 (stringsSplit_paren_ne_nil _)
    · simp
  · intro rest m hs hsel
    obtain ⟨first, tl, hsplit, hmain⟩ := main_of_succeeds w rest m hs
    rw [hsel] at hsplit
    have h0 : stringsSplit [] "(".toList = [[]] := by decide
    rw [h0] at hsplit
    obtain ⟨rfl, -⟩ := List.cons.inj hsplit
    rw [hmain]
    simp

/-- C10 on a run in which the model offers nothing: the prompt fails and
yields the empty selection, the run returns and prints `git` followed by a
space. -/
theorem empty_selection_scenario :
    Succeeds emptyWorld ["git".toList] [] ∧
    selectOption emptyWorld [] = [] ∧
    (main emptyWorld).exit = .returned ∧
    (main emptyWorld).stdout = [commandOf ["git".toList] ++ " ".toList] :=
  have hs : Succeeds emptyWorld ["git".toList] [] :=
    ⟨⟨⟨rfl, rfl, rfl, rfl⟩, rfl, ⟨"revman".toList, rfl⟩, rfl⟩, rfl⟩
  ⟨hs, rfl, (split_first_defined_and_empty_selection emptyWorld).2.2.2 ["git".toList] [] hs rfl⟩

/-- C1 as amended: when every stage succeeds and the prompt returns the
label built for a key `k` without `(` and a description `d`, the program
prints exactly the command string, a space, the key and one more space:
the key is the part of the label before its first `(`, untrimmed. -/
theorem prints_command_key_and_space (w : World) (rest : List Str) (m : GoMap) (k d : Str)
    (hs : Succeeds w rest m) (hk : '(' ∉ k)
    (hsel : selectOption w m = optionLabel w.green k d) :
    (main w).stdout = [commandOf rest ++ " ".toList ++ k ++ " ".toList] := by
  obtain ⟨first, tl, hsplit, hmain⟩ := main_of_succeeds w rest m hs
  obtain ⟨tl2, h2⟩ := stringsSplit_optionLabel w.green k d hk
  rw [hsel, h2] at hsplit
  obtain ⟨rfl, -⟩ := List.cons.inj hsplit
  rw [hmain]
  simp

/-- C1 on scenario 2: selecting the label of `-a` after `ls -` prints
`ls - -a` followed by a space. -/
theorem prints_ls_scenario :
    Succeeds lsWorld ["ls".toList, "-".toList]
      [("-l".toList, .string "long listing".toList),
       ("-a".toList, .string "show hidden files".toList)] ∧
    (main lsWorld).stdout = ["ls - -a ".toList] :=
  have hs : Succeeds lsWorld ["ls".toList, "-".toList]
      [("-l".toList, .string "long listing".toList),
       ("-a".toList, .string "show hidden files".toList)] :=
    ⟨⟨⟨rfl, rfl, rfl, rfl⟩, rfl, ⟨"revman".toList, rfl⟩, rfl⟩, rfl⟩
  ⟨hs, prints_command_key_and_space lsWorld _ _ "-a".toList "show hidden files".toList hs
    (by decide) rfl⟩

/-- C1 as stated fails on scenario 1: every stage succeeds, the selection
is the label built for the key `commit` (which contains no `(`) and its
description, and the program prints `git commit` followed by a space, not
`git commit`. -/
theorem prints_git_commit_with_trailing_space :
    Succeeds gitWorld ["git".toList]
      [("commit".toList, .string "Record changes".toList),
       ("push".toList, .string "Update remote refs".toList)] ∧
    '(' ∉ "commit".toList ∧
    selectOption gitWorld
      [("commit".toList, .string "Record changes".toList),
       ("push".toList, .string "Update remote refs".toList)] =
      optionLabel gitWorld.green "commit".toList "Record changes".toList ∧
    (main gitWorld).stdout = ["git commit ".toList] ∧
    (main gitWorld).stdout ≠ [commandOf ["git".toList] ++ " ".toList ++ "commit".toList] :=
  ⟨⟨⟨⟨rfl, rfl, rfl, rfl⟩, rfl, ⟨"revman".toList, rfl⟩, rfl⟩, rfl⟩, by decide, rfl, by decide,
    by decide⟩

/-- C4 as amended: for every option set and every selection that is the
label built from one of its entries whose key contains no `(` (with any
description), the printed string begins with the command string, a single
space and the key in full, and what follows the key is one space and
nothing of the description. -/
theorem output_begins_with_command_and_key (w : World) (rest : List Str) (m : GoMap) (k d : Str)
    (hs : Succeeds w rest m) (hin : (k, JsonValue.string d) ∈ m) (hk : '(' ∉ k)
    (hsel : selectOption w m = optionLabel w.green k d) :
    m ≠ [] ∧
    optionLabel w.green k d ∈ selectOptions w m ∧
    ∃ out, (main w).stdout = [out] ∧
      (commandOf rest ++ " ".toList ++ k) <+: out ∧
      out.drop (commandOf rest ++ " ".toList ++ k).length = " ".toList := by
  obtain ⟨first, tl, hsplit, hmain⟩ := main_of_succeeds w rest m hs
  obtain ⟨tl2, h2⟩ := stringsSplit_optionLabel w.green k d hk
  rw [hsel, h2] at hsplit
  obtain ⟨rfl, -⟩ := List.cons.inj hsplit
  refine ⟨List.ne_nil_of_mem hin, ?_, commandOf rest ++ " ".toList ++ k ++ " ".toList, ?_, ?_, ?_⟩
  · have hperm : (selectOptions w m).Perm
        ((stringEntries m).map fun e => optionLabel w.green e.1 e.2) := by
      unfold selectOptions
      rw [selectOptions_foldl, List.nil_append]
      exact ((w.rangeOrder_perm m).filterMap _).map _
    rw [hperm.mem_iff, List.mem_map]
    refine ⟨(k, d), ?_, rfl⟩
    unfold stringEntries
    rw [List.mem_filterMap]
    exact ⟨(k, .string d), hin, rfl⟩
  · rw [hmain]
    simp
  · exact List.prefix_append _ _
  · simp

/-- C4 on scenario 1: the selection is the label of the entry `commit`;
the output begins with `git commit` and one space follows. -/
theorem output_git_scenario :
    Succeeds gitWorld ["git".toList]
      [("commit".toList, .string "Record changes".toList),
       ("push".toList, .string "Update remote refs".toList)] ∧
    ∃ out, (main gitWorld).stdout = [out] ∧
      (commandOf ["git".toList] ++ " ".toList ++ "commit".toList) <+: out ∧
      out.drop (commandOf ["git".toList] ++ " ".toList ++ "commit".toList).length = " ".toList :=
  have hs : Succeeds gitWorld ["git".toList]
      [("commit".toList, .string "Record changes".toList),
       ("push".toList, .string "Update remote refs".toList)] :=
    ⟨⟨⟨rfl, rfl, rfl, rfl⟩, rfl, ⟨"revman".toList, rfl⟩, rfl⟩, rfl⟩
  ⟨hs, (output_begins_with_command_and_key gitWorld _ _ "commit".toList "Record changes".toList hs
    (by simp) (by decide) rfl).2.2⟩

/-- C4 as stated fails for a key that contains `(`: in a run of
`revman find` the option set has the one entry with key `(`, the selection
is its label, the only one offered, and the program prints `find` and a
space, which does not begin with the command, a space and the key. -/
theorem output_truncates_key_with_paren :
    Succeeds findWorld ["find".toList] [("(".toList, .string "open a group".toList)] ∧
    selectOptions findWorld [("(".toList, .string "open a group".toList)] =
      [optionLabel findWorld.green "(".toList "open a group".toList] ∧
    selectOption findWorld [("(".toList, .string "open a group".toList)] =
      optionLabel findWorld.green "(".toList "open a group".toList ∧
    (main findWorld).stdout = ["find ".toList] ∧
    ¬ ∃ out, (main findWorld).stdout = [out] ∧
      (commandOf ["find".toList] ++ " ".toList ++ "(".toList) <+: out := by
  refine ⟨⟨⟨⟨rfl, rfl, rfl, rfl⟩, rfl, ⟨"revman".toList, rfl⟩, rfl⟩, rfl⟩, rfl, rfl, by decide, ?_⟩
  rintro ⟨out, hout, hpre⟩
  have h : (main findWorld).stdout = ["find ".toList] := by decide
  rw [h] at hout
  obtain ⟨rfl, -⟩ := List.cons.inj hout
  revert hpre
  decide

/-- C3 as amended: for every accumulated response text that is not valid
JSON, or whose top-level value is an array, a number, a string or a
boolean, `json.Unmarshal` fails, the run takes the fatal branch with the
decode error as the last log line, no map is passed to `selectOption`
and nothing is printed. -/
theorem decode_failure_is_fatal (w : World) (g : Str) (hg : (main w).genResp = some g)
    (hbad : DecodesAsNeitherObjectNorNull g) :
    (∃ e, jsonUnmarshal g = .error e ∧
      (main w).logFile.getLast? =
        some (.fatalf "could not parse Ollama response: %s".toList (some e))) ∧
    (main w).exit = .fatal ∧ (main w).respJSON = none ∧ (main w).stdout = [] := by
  obtain ⟨rest, hgen, rfl⟩ := (stages_of_main w).2.1 g hg
  have herr : ∃ e, jsonUnmarshal
      (accumulated (w.generate (generateRequest w.goos (commandOf rest))).messages) = .error e := by
    unfold jsonUnmarshal
    rcases hbad with h | ⟨v, e, h, ⟨l, rfl⟩ | ⟨n, rfl⟩ | ⟨x, rfl⟩ | ⟨b, rfl⟩⟩ <;> rw [h] <;> exact ⟨_, rfl⟩
  obtain ⟨e, he⟩ := herr
  rw [main_of_decode_error w rest e hgen he]
  refine ⟨⟨e, he, ?_⟩, rfl, rfl, rfl⟩
  simp [fatalExit]

/-- C3 on a bare array and on a truncated object: both responses fail to
decode, the runs are fatal, pass no map on and print nothing; a number, a
string and a boolean fail to decode as well. -/
theorem decode_failure_scenarios :
    ((main arrayWorld).genResp = some "[\"commit\",\"push\"]".toList ∧
      (main arrayWorld).exit = .fatal ∧ (main arrayWorld).respJSON = none ∧
      (main arrayWorld).stdout = []) ∧
    ((main truncatedWorld).genResp = some "\x7b\"commit\":\"Rec".toList ∧
      (main truncatedWorld).exit = .fatal ∧ (main truncatedWorld).respJSON = none ∧
      (main truncatedWorld).stdout = []) ∧
    jsonUnmarshal "42".toList = .error (.unmarshalTypeError "number".toList) ∧
    jsonUnmarshal "\"commit\"".toList = .error (.unmarshalTypeError "string".toList) ∧
    jsonUnmarshal "true".toList = .error (.unmarshalTypeError "bool".toList) ∧
    jsonUnmarshal "\x7b\"commit\" \"x\"\x7d".toList = .error .syntaxError :=
  ⟨⟨rfl, (decode_failure_is_fatal arrayWorld "[\"commit\",\"push\"]".toList rfl
      (Or.inr ⟨_, _, rfl, Or.inl ⟨_, rfl⟩⟩)).2⟩,
   ⟨rfl, (decode_failure_is_fatal truncatedWorld "\x7b\"commit\":\"Rec".toList rfl
      (Or.inl rfl)).2⟩, rfl, rfl, rfl, rfl⟩

/-- C3 as stated fails for the response `null`: its top-level value is not
an object, yet `json.Unmarshal` succeeds and leaves the map nil; the run
does not take the fatal branch, passes the empty map to `selectOption`
and prints `git` followed by a space. -/
theorem null_response_decodes :
    ¬ DecodesAsObject "null".toList ∧
    (main nullWorld).genResp = some "null".toList ∧
    jsonUnmarshal "null".toList = .ok [] ∧
    (main nullWorld).exit = .returned ∧
    (main nullWorld).respJSON = some [] ∧
    (main nullWorld).stdout = ["git ".toList] := by
  refine ⟨?_, rfl, rfl, rfl, rfl, by decide⟩
  rintro ⟨m, e, h⟩
  have h0 : jsonDecode "null".toList = some (.null, none) := rfl
  rw [h0] at h
  simp at h

/-- C8 as amended: when the state directory (the value of
`XDG_STATE_HOME` if the variable is set, the home directory otherwise) is
an absolute path in canonical form and the `revman` directory can be
created, `getLogPath` returns the state directory followed by
`/revman/general.log`, with `/state` in between when the home directory is
used; for any state directory it returns the cleaned join of the state
directory, `revman` and `general.log`.  It returns an error exactly when
the variable is unset and the home directory cannot be determined, or when
the `revman` directory cannot be created, and then the path is empty. -/
theorem getLogPath_spec (os : OsEnv) :
    (∀ cs, cs ≠ [] → (∀ c ∈ cs, NormalElem c) →
      os.lookupEnv "XDG_STATE_HOME".toList = some (absPath cs) →
      os.mkdirAll (absPath cs ++ "/revman".toList) = none →
      getLogPath os = (absPath cs ++ "/revman/general.log".toList, none)) ∧
    (∀ cs, cs ≠ [] → (∀ c ∈ cs, NormalElem c) →
      os.lookupEnv "XDG_STATE_HOME".toList = none →
      os.userHomeDir = .ok (absPath cs) →
      os.mkdirAll (absPath cs ++ "/state/revman".toList) = none →
      getLogPath os = (absPath cs ++ "/state/revman/general.log".toList, none)) ∧
    (∀ sd, stateDir os = some sd → os.mkdirAll (pathJoin [sd, "revman".toList]) = none →
      getLogPath os = (pathJoin [pathJoin [sd, "revman".toList], "general.log".toList], none)) ∧
    ((getLogPath os).2 ≠ none ↔
      (os.lookupEnv "XDG_STATE_HOME".toList = none ∧ ∃ e, os.userHomeDir = .error e) ∨
      ∃ sd, stateDir os = some sd ∧ os.mkdirAll (pathJoin [sd, "revman".toList]) ≠ none) ∧
    ((getLogPath os).2 ≠ none → (getLogPath os).1 = []) := by
  have hrevman : NormalElem "revman".toList := by decide
  have hstate : NormalElem "state".toList := by decide
  have hlog : NormalElem "general.log".toList := by decide
  have hgeneral : ∀ sd, stateDir os = some sd →
      os.mkdirAll (pathJoin [sd, "revman".toList]) = none →
      getLogPath os = (pathJoin [pathJoin [sd, "revman".toList], "general.log".toList], none) := by
    intro sd hsd hmk
    unfold stateDir at hsd
    unfold getLogPath
    cases hx : os.lookupEnv "XDG_STATE_HOME".toList with
    | some v =>
      rw [hx] at hsd
      simp only [Option.some.injEq] at hsd
      subst hsd
      simp only [hmk]
    | none =>
      rw [hx] at hsd
      cases hh : os.userHomeDir with
      | error e => rw [hh] at hsd; simp at hsd
      | ok homeDir =>
        rw [hh] at hsd
        simp only [Option.some.injEq] at hsd
        subst hsd
        simp only [hmk]
  have hnormal : ∀ (cs : List Str) (e : Str), (∀ c ∈ cs, NormalElem c) → NormalElem e →
      ∀ c ∈ cs ++ [e], NormalElem c := by
    intro cs e hall he c hc
    rcases List.mem_append.mp hc with h | h
    · exact hall c h
    · rw [List.mem_singleton.mp h]; exact he
  refine ⟨?_, ?_, hgeneral, ?_, ?_⟩
  · intro cs hne hall hx hmk
    have hj1 : pathJoin [absPath cs, "revman".toList] = absPath cs ++ "/revman".toList := by
      rw [pathJoin_absPath cs _ hne hall hrevman, absPath_append]; rfl
    have hsd : stateDir os = some (absPath cs) := by unfold stateDir; rw [hx]
    rw [hgeneral _ hsd (by rw [hj1]; exact hmk)]
    rw [pathJoin_absPath cs _ hne hall hrevman,
      pathJoin_absPath _ _ (by simp) (hnormal cs _ hall hrevman) hlog]
    rw [absPath_append, absPath_append, List.append_assoc]
    rfl
  · intro cs hne hall hx hh hmk
    have hj0 : pathJoin [absPath cs, "state".toList] = absPath (cs ++ ["state".toList]) :=
      pathJoin_absPath cs _ hne hall hstate
    have hall1 := hnormal cs _ hall hstate
    have hj1 : pathJoin [absPath (cs ++ ["state".toList]), "revman".toList] =
        absPath cs ++ "/state/revman".toList := by
      rw [pathJoin_absPath _ _ (by simp) hall1 hrevman]
      rw [absPath_append, absPath_append, List.append_assoc]
      rfl
    have hsd : stateDir os = some (absPath (cs ++ ["state".toList])) := by
      unfold stateDir; rw [hx, hh]; simp only []; rw [hj0]
    rw [hgeneral _ hsd (by rw [hj1]; exact hmk)]
    rw [pathJoin_absPath _ _ (by simp) hall1 hrevman,
      pathJoin_absPath _ _ (by simp) (hnormal _ _ hall1 hrevman) hlog]
    rw [absPath_append, absPath_append, absPath_append, List.append_assoc, List.append_assoc]
    rfl
  · unfold stateDir getLogPath
    generalize "XDG_STATE_HOME".toList = kx
    generalize "revman".toList = rv
    generalize "state".toList = st
    generalize "general.log".toList = gl
    cases hx : os.lookupEnv kx with
    | some v =>
      cases hmk : os.mkdirAll (pathJoin [v, rv]) <;> simp [hmk]
    | none =>
      cases hh : os.userHomeDir with
      | error e => simp
      | ok homeDir =>
        cases hmk : os.mkdirAll (pathJoin [pathJoin [homeDir, st], rv]) <;> simp [hmk]
  · unfold getLogPath
    generalize "XDG_STATE_HOME".toList = kx
    generalize "revman".toList = rv
    generalize "state".toList = st
    generalize "general.log".toList = gl
    cases hx : os.lookupEnv kx with
    | some v =>
      cases hmk : os.mkdirAll (pathJoin [v, rv]) <;> simp [hmk]
    | none =>
      cases hh : os.userHomeDir with
      | error e => simp
      | ok homeDir =>
        cases hmk : os.mkdirAll (pathJoin [pathJoin [homeDir, st], rv]) <;> simp [hmk]

/-- C8 with `XDG_STATE_HOME` set to `/home/u/.local/state`, and with the
variable unset and the home directory `/home/u`. -/
theorem getLogPath_canonical_scenarios :
    getLogPath (demoOs (some "/home/u/.local/state")) =
      ("/home/u/.local/state/revman/general.log".toList, none) ∧
    getLogPath (demoOs none) = ("/home/u/state/revman/general.log".toList, none) :=
  ⟨(getLogPath_spec (demoOs (some "/home/u/.local/state"))).1
      ["home".toList, "u".toList, ".local".toList, "state".toList] (by simp) (by decide) rfl rfl,
   (getLogPath_spec (demoOs none)).2.1 ["home".toList, "u".toList] (by simp) (by decide) rfl rfl rfl⟩

/-- C8 as stated fails when `XDG_STATE_HOME` is set to the empty string:
the result is the relative path `revman/general.log`, not the value of the
variable followed by `/revman/general.log`; and with the value `/tmp/` the
result has a single slash after `tmp`. -/
theorem getLogPath_empty_state_home :
    (demoOs (some "")).lookupEnv "XDG_STATE_HOME".toList = some [] ∧
    getLogPath (demoOs (some "")) = ("revman/general.log".toList, none) ∧
    (getLogPath (demoOs (some ""))).1 ≠ [] ++ "/revman/general.log".toList ∧
    (demoOs (some "/tmp/")).lookupEnv "XDG_STATE_HOME".toList = some "/tmp/".toList ∧
    getLogPath (demoOs (some "/tmp/")) = ("/tmp/revman/general.log".toList, none) ∧
    (getLogPath (demoOs (some "/tmp/"))).1 ≠ "/tmp/".toList ++ "/revman/general.log".toList :=
  ⟨rfl, rfl, by decide, rfl, rfl, by decide⟩

end Revman
